import Mathlib

/-!
Shallow embedding of the Route Optimization and Day-Clustering Engine of the
AITravel planner repository (src/route_optimizer.py and src/app.py), together
with theorems settling the frozen claims about it.

Conventions of the embedding:
  * Python floats are modelled as rationals (ℚ); coordinates are pairs of ℚ.
  * The geodesic distance function (geopy's `geodesic(..).kilometers`, an
    external library) is an explicit parameter `d : Coord → Coord → ℚ` of
    every routing function; the repository's own code never inspects it.
  * Python's builtin `round(x, n)` uses round-half-to-even; it is modelled
    exactly by `roundHalfEven` below.
  * `min(iterable, key=f)` returns the first element of the iteration
    attaining the minimum (later elements replace the best only on a strict
    improvement); `pyMin` models this fold exactly.  The set `unvisited` in
    `nearest_neighbor_route` is `set(range(n))` with elements removed: a
    CPython set of the small ints 0..n-1 hashes each int to itself into a
    table larger than n, so iteration is in increasing numeric order and
    removal preserves that order.  The embedding therefore keeps `unvisited`
    as a strictly increasing list of indices.
  * Python dicts for venues are modelled as structures whose possibly-absent
    keys are `Option` fields; `dict.get(k, 0)` is `Option.getD · 0`.
-/

namespace AITravel

abbrev Coord := ℚ × ℚ

/-- Python's builtin banker's rounding to an integer: round-half-to-even. -/
def roundHalfEven (q : ℚ) : ℤ :=
  let f := ⌊q⌋
  let r := q - f
  if r < 1/2 then f
  else if 1/2 < r then f + 1
  else if f % 2 = 0 then f else f + 1

/-- Python `round(x, 2)`. -/
def round2 (q : ℚ) : ℚ := (roundHalfEven (q * 100) : ℚ) / 100

/-- Python `round(x, 1)`. -/
def round1 (q : ℚ) : ℚ := (roundHalfEven (q * 10) : ℚ) / 10

/-- CPython `min` over the iteration `x, xs...` with key `f`: the running best
is replaced only on a strict improvement, so the first minimum wins. -/
def pyMin (f : Nat → ℚ) (x : Nat) (xs : List Nat) : Nat :=
  xs.foldl (fun best i => if f i < f best then i else best) x

/-- CPython `min` over a whole list (the list is nonempty at every use site;
the value on `[]` is irrelevant since Python would raise there). -/
def pyMinL (f : Nat → ℚ) : List Nat → Nat
  | [] => 0
  | x :: xs => pyMin f x xs

/-- Indexing `locations[i]` (every index used is in range; `getD` keeps the
function total). -/
def coordAt (locs : List Coord) (i : Nat) : Coord := locs.getD i (0, 0)

/-- The `while unvisited:` loop of `nearest_neighbor_route`: repeatedly pick
the unvisited index nearest to the current location and advance to it.  The
fuel argument equals the length of the unvisited list at every call. -/
def nnLoop (d : Coord → Coord → ℚ) (locs : List Coord) :
    Nat → Nat → List Nat → List Nat
  | 0, _, _ => []
  | _ + 1, _, [] => []
  | fuel + 1, current, x :: xs =>
    let nearest := pyMin (fun i => d (coordAt locs current) (coordAt locs i)) x xs
    nearest :: nnLoop d locs fuel nearest ((x :: xs).erase nearest)

/-- src/route_optimizer.py, `nearest_neighbor_route(locations, start=None)`.
Empty input returns `[]`, a single location returns `[0]`; otherwise the
start index is the location closest to `start` when one is given (any tuple
is truthy in Python) and 0 otherwise, and the greedy loop visits the rest. -/
def nearest_neighbor_route (d : Coord → Coord → ℚ) (locations : List Coord)
    (start : Option Coord) : List Nat :=
  match locations with
  | [] => []
  | [_] => [0]
  | _ :: _ :: _ =>
    let n := locations.length
    let current : Nat :=
      match start with
      | some s => pyMinL (fun i => d s (coordAt locations i)) (List.range n)
      | none => 0
    current :: nnLoop d locations (n - 1) current ((List.range n).erase current)

/-- A venue dict as consumed by `optimize_route` and `cluster_by_proximity`:
the coordinate keys may be absent (`dict.get('latitude', 0)` defaults them
to 0) and `meta` stands for all the other metadata keys, which the routing
code never touches. -/
structure Venue where
  name : String
  latitude : Option ℚ
  longitude : Option ℚ
  meta : String
  deriving DecidableEq

/-- The coordinate extraction `(loc.get('latitude', 0), loc.get('longitude', 0))`. -/
def coordOf (v : Venue) : Coord := (v.latitude.getD 0, v.longitude.getD 0)

def dfltVenue : Venue := ⟨"", none, none, ""⟩

/-- src/route_optimizer.py, `optimize_route(locations, start_location=None)`.
The Python function returns a bare `[]` for empty input (modelled `Sum.inl`)
and the pair `(optimized, total_distance)` otherwise (modelled `Sum.inr`).
The loop `for i in range(len(optimized) - 1)` stores `round(dist, 2)` on the
earlier venue and accumulates the unrounded `dist` into `total_distance`;
the final venue's field is set to 0 afterwards.  The reordered list zipped
with the list of rounded consecutive distances (then 0 for the last venue)
models exactly that loop, and `dists.sum` models the accumulator. -/
def optimize_route (d : Coord → Coord → ℚ) (locations : List Venue)
    (start_location : Option Coord) : Sum (List (Venue × ℚ)) (List (Venue × ℚ) × ℚ) :=
  match locations with
  | [] => Sum.inl []
  | _ :: _ =>
    let coords := locations.map coordOf
    let route_order := nearest_neighbor_route d coords start_location
    let optimized := route_order.map (fun i => locations.getD i dfltVenue)
    let dists := List.zipWith (fun v w => d (coordOf v) (coordOf w)) optimized optimized.tail
    Sum.inr (optimized.zip (dists.map round2 ++ [0]), dists.sum)

/-- The venues of an `optimize_route` result, stripped of the appended
`distance_to_next` field. -/
def routedVenues : Sum (List (Venue × ℚ)) (List (Venue × ℚ) × ℚ) → List Venue
  | Sum.inl l => l.map Prod.fst
  | Sum.inr (l, _) => l.map Prod.fst

/-- The inner `while i < len(unassigned)` scan of `cluster_by_proximity`: one
left-to-right pass over the unassigned venues, moving every venue within
`maxd` of the fixed cluster center into the cluster and keeping the rest, in
order. -/
def scanNear (d : Coord → Coord → ℚ) (center : Coord) (maxd : ℚ) :
    List Venue → List Venue × List Venue
  | [] => ([], [])
  | v :: rest =>
    let p := scanNear d center maxd rest
    if d center (coordOf v) ≤ maxd then (v :: p.1, p.2) else (p.1, v :: p.2)

/-- The outer `while unassigned:` loop of `cluster_by_proximity`: pop the
first unassigned venue as the seed, absorb everything within `maxd` of the
seed's coordinate, repeat.  The fuel bounds the number of iterations; each
iteration consumes at least the seed, so `locs.length` fuel always suffices. -/
def clusterLoop (d : Coord → Coord → ℚ) (maxd : ℚ) :
    Nat → List Venue → List (List Venue)
  | 0, _ => []
  | _ + 1, [] => []
  | fuel + 1, seed :: rest =>
    let p := scanNear d (coordOf seed) maxd rest
    (seed :: p.1) :: clusterLoop d maxd fuel p.2

/-- src/route_optimizer.py, `cluster_by_proximity(locations, max_distance_km=5.0)`. -/
def cluster_by_proximity (d : Coord → Coord → ℚ) (locs : List Venue) (maxd : ℚ) :
    List (List Venue) :=
  clusterLoop d maxd locs.length locs

/-- src/route_optimizer.py, `calculate_travel_time(distance_km, mode='driving')`:
fixed speed table, unknown mode falls back to 50 km/h, result in minutes
rounded to one decimal place. -/
def calculate_travel_time (distance_km : ℚ) (mode : String) : ℚ :=
  let speed : ℚ :=
    if mode = "driving" then 50
    else if mode = "walking" then 5
    else if mode = "transit" then 30
    else if mode = "cycling" then 15
    else 50
  round1 (distance_km / speed * 60)

/-! Model of the assembly layer in src/app.py (`extract_locations` and the
hotel coordinate fallback).  `get_hotel_coordinates` scans dataset files on
disk and returns either a coordinate pair or None; it is modelled as an
explicit `resolver` parameter. -/

/-- A hotel record from the plan's `hotels` list. -/
structure HotelR where
  name : String
  address : String
  latitude : Option ℚ
  longitude : Option ℚ
  price : Option ℚ
  rating : Option ℚ
  deriving DecidableEq

/-- An attraction record from the plan's attractions map. -/
structure AttrR where
  name : String
  latitude : Option ℚ
  longitude : Option ℚ
  price : Option ℚ
  rating : Option ℚ
  deriving DecidableEq

/-- A restaurant record from the plan's restaurants map. -/
structure RestR where
  name : String
  latitude : Option ℚ
  longitude : Option ℚ
  price : Option ℚ
  rating : Option ℚ
  deriving DecidableEq

/-- One day's attractions, keyed by the two time slots the code iterates. -/
structure DayAtt where
  morning : List AttrR
  evening : List AttrR
  deriving DecidableEq

/-- The plan dict as consumed by `extract_locations`: a flat hotel list, a
day-keyed attraction map and a day-keyed, meal-keyed restaurant map
(dict iteration order is insertion order, so association lists model it). -/
structure Plan where
  hotels : List HotelR
  attractions : List (String × DayAtt)
  restaurants : List (String × List (String × List RestR))
  deriving DecidableEq

/-- A map location entry as produced by `extract_locations`. -/
structure Loc where
  name : String
  type : String
  lat : ℚ
  lng : ℚ
  price : ℚ
  rating : ℚ
  day : Option String
  time : Option String
  meal : Option String
  deriving DecidableEq

/-- Python truthiness of `dict.get(key)` for a float-valued key: falsy when
the key is absent (None) or the value is 0.0. -/
def truthyOpt (o : Option ℚ) : Bool :=
  match o with
  | some x => decide (x ≠ 0)
  | none => false

/-- The hotel branch of `extract_locations`: coordinates default to 0; if
both are 0 the fallback resolver is consulted; the hotel is kept only when
both final coordinates are nonzero. -/
def hotelLoc (resolver : String → String → Option (ℚ × ℚ)) (h : HotelR) : List Loc :=
  let lat := h.latitude.getD 0
  let lng := h.longitude.getD 0
  let c : ℚ × ℚ :=
    if lat = 0 ∧ lng = 0 then
      match resolver h.name h.address with
      | some q => q
      | none => (lat, lng)
    else (lat, lng)
  if c.1 ≠ 0 ∧ c.2 ≠ 0 then
    [⟨h.name, "hotel", c.1, c.2, h.price.getD 0, h.rating.getD 0, none, none, none⟩]
  else []

/-- The attraction branch of `extract_locations`: kept only when both
coordinate values are present and truthy (nonzero); no fallback lookup. -/
def attrLoc (day slot : String) (a : AttrR) : List Loc :=
  if truthyOpt a.latitude && truthyOpt a.longitude then
    [⟨a.name, "attraction", a.latitude.getD 0, a.longitude.getD 0,
      a.price.getD 0, a.rating.getD 0, some day, some slot, none⟩]
  else []

/-- The restaurant branch of `extract_locations`: kept whenever both
coordinate keys are present, whatever their values; no fallback lookup. -/
def restLoc (day meal : String) (r : RestR) : List Loc :=
  if r.latitude.isSome && r.longitude.isSome then
    [⟨r.name, "restaurant", r.latitude.getD 0, r.longitude.getD 0,
      r.price.getD 0, r.rating.getD 0, some day, none, some meal⟩]
  else []

/-- src/app.py, `extract_locations(plan)`: hotels, then attractions (morning
before evening within each day), then restaurants, each filtered by its
branch's own coordinate test. -/
def extract_locations (resolver : String → String → Option (ℚ × ℚ)) (plan : Plan) :
    List Loc :=
  plan.hotels.flatMap (hotelLoc resolver) ++
  plan.attractions.flatMap (fun da =>
    da.2.morning.flatMap (attrLoc da.1 "morning") ++ da.2.evening.flatMap (attrLoc da.1 "evening")) ++
  plan.restaurants.flatMap (fun dr =>
    dr.2.flatMap (fun mr => mr.2.flatMap (restLoc dr.1 mr.1)))

/-! Spec-side definitions, written from the claims' wording, to be compared
with the functions embedded from the source. -/

/-- Formalisation of the claim's greedy-walk property: starting at `cur` with
unvisited index set `u`, each successive element of the walk is a member of
the unvisited set at minimum distance to the current location, ties broken by
the lowest index, and the walk ends exactly when the unvisited set is empty. -/
def greedyFrom (d : Coord → Coord → ℚ) (locs : List Coord) :
    Nat → List Nat → List Nat → Prop
  | _, u, [] => u = []
  | cur, u, x :: rest =>
    x ∈ u ∧
    (∀ j ∈ u, d (coordAt locs cur) (coordAt locs x) ≤ d (coordAt locs cur) (coordAt locs j)) ∧
    (∀ j ∈ u, d (coordAt locs cur) (coordAt locs j) = d (coordAt locs cur) (coordAt locs x) →
      x ≤ j) ∧
    greedyFrom d locs x (u.erase x) rest

/-- The greedy-walk contract of the router, as the claim states it: the route
is nonempty, its head is index 0 without a start coordinate and the
lowest-index minimiser of distance to `start` with one, every later element
greedily minimises distance to the current location with lowest-index
tie-break, and the walk has visited every location when it ends. -/
def nnGreedySpec (d : Coord → Coord → ℚ) (locs : List Coord) (start : Option Coord) : Prop :=
  ∃ c rest,
    nearest_neighbor_route d locs start = c :: rest ∧
    (start = none → c = 0) ∧
    (∀ s, start = some s →
      c ∈ List.range locs.length ∧
      (∀ j ∈ List.range locs.length, d s (coordAt locs c) ≤ d s (coordAt locs j)) ∧
      (∀ j ∈ List.range locs.length, d s (coordAt locs j) = d s (coordAt locs c) → c ≤ j)) ∧
    greedyFrom d locs c ((List.range locs.length).erase c) rest ∧
    (c :: rest).length = locs.length

/-- Distance annotation as the spec describes it (with the rounding the code
actually applies): each venue carries the rounded distance to its successor
and the last venue carries 0. -/
def annotate (d : Coord → Coord → ℚ) : List Venue → List (Venue × ℚ)
  | [] => []
  | [v] => [(v, 0)]
  | v :: w :: rest => (v, round2 (d (coordOf v) (coordOf w))) :: annotate d (w :: rest)

/-- The exact (unrounded) sum of consecutive-pair distances along a venue
order. -/
def pathSum (d : Coord → Coord → ℚ) : List Venue → ℚ
  | [] => 0
  | [_] => 0
  | v :: w :: rest => d (coordOf v) (coordOf w) + pathSum d (w :: rest)

/-! Concrete objects used by witnesses and counterexamples. -/

/-- A concrete distance function used to instantiate the abstract geodesic
parameter in witnesses (squared planar distance; any function works, since the
routing code only compares distance values). -/
def sqDist : Coord → Coord → ℚ := fun p q => (p.1 - q.1) ^ 2 + (p.2 - q.2) ^ 2

/-- A distance function whose value on the venues below is not a multiple of
0.01 km (as geodesic distances generically are not). -/
def dTiny : Coord → Coord → ℚ := fun _ _ => 1 / 1000

def vA : Venue := ⟨"A", some 1, some 1, ""⟩

def vB : Venue := ⟨"B", some 2, some 2, ""⟩

def vNoCoords : Venue := ⟨"NoCoords", none, none, ""⟩

/-- A plan holding one restaurant whose coordinate keys are present and both
exactly 0. -/
def planR : Plan :=
  ⟨[], [], [("Day 1", [("breakfast", [⟨"R", some 0, some 0, none, none⟩])])]⟩

/-- An attraction record with coordinate exactly (0, 0). -/
def attrZero : AttrR := ⟨"AZ", some 0, some 0, none, none⟩

/-- A hotel record with coordinate exactly (0, 0). -/
def hotelZero : HotelR := ⟨"H", "Addr", some 0, some 0, none, none⟩

/-- A restaurant record with both coordinate keys present and equal to 0. -/
def restZero : RestR := ⟨"R", some 0, some 0, none, none⟩

/-- A plan holding only that attraction. -/
def planA : Plan := ⟨[], [("Day 1", ⟨[attrZero], []⟩)], []⟩

/-! Basic facts about `pyMin`. -/

theorem pyMin_mem (f : Nat → ℚ) : ∀ (xs : List Nat) (x : Nat), pyMin f x xs ∈ x :: xs := by
  intro xs
  induction xs with
  | nil => intro x; simp [pyMin]
  | cons y ys ih =>
    intro x
    have hstep : pyMin f x (y :: ys) = pyMin f (if f y < f x then y else x) ys := by
      simp [pyMin, List.foldl]
    by_cases hc : f y < f x
    · rw [hstep, if_pos hc]
      rcases List.mem_cons.mp (ih y) with h1 | h2
      · simp [h1]
      · simp [h2]
    · rw [hstep, if_neg hc]
      rcases List.mem_cons.mp (ih x) with h1 | h2
      · simp [h1]
      · simp [h2]

/-- Full characterisation of `pyMin` over a strictly increasing candidate
list: the result is a member, attains the minimum key, strictly improves on
the seed whenever it differs from it, and among equal keys has the least
value (= the least original index, since the list is increasing). -/
theorem pyMin_spec (f : Nat → ℚ) :
    ∀ (xs : List Nat) (x : Nat), List.Sorted (· < ·) (x :: xs) →
      pyMin f x xs ∈ x :: xs ∧
      (pyMin f x xs ≠ x → f (pyMin f x xs) < f x) ∧
      (∀ j ∈ x :: xs, f (pyMin f x xs) ≤ f j) ∧
      (∀ j ∈ x :: xs, f j = f (pyMin f x xs) → pyMin f x xs ≤ j) := by
  intro xs
  induction xs with
  | nil =>
    intro x _
    refine ⟨by simp [pyMin], by simp [pyMin], ?_, ?_⟩
    · intro j hj; simp [pyMin] at hj ⊢; simp [hj]
    · intro j hj _; simp [pyMin] at hj ⊢; simp [hj]
  | cons y ys ih =>
    intro x hs
    have hxy : x < y := (List.sorted_cons.mp hs).1 y (by simp)
    have hyys : List.Sorted (· < ·) (y :: ys) := (List.sorted_cons.mp hs).2
    have hstep : pyMin f x (y :: ys) = pyMin f (if f y < f x then y else x) ys := by
      simp [pyMin, List.foldl]
    by_cases hc : f y < f x
    · -- the seed is beaten immediately by y
      rw [hstep, if_pos hc]
      have h := ih y hyys
      obtain ⟨hmem, hstrict, hmin, htie⟩ := h
      have hry : f (pyMin f y ys) ≤ f y := hmin y (by simp)
      refine ⟨?_, ?_, ?_, ?_⟩
      · exact List.mem_cons.mpr (Or.inr hmem)
      · intro hne
        exact lt_of_le_of_lt hry hc
      · intro j hj
        rcases List.mem_cons.mp hj with h1 | h2
        · subst h1; exact le_of_lt (lt_of_le_of_lt hry hc)
        · exact hmin j h2
      · intro j hj hje
        rcases List.mem_cons.mp hj with h1 | h2
        · exfalso; subst h1
          exact absurd hje (ne_of_gt (lt_of_le_of_lt hry hc))
        · exact htie j h2 hje
    · -- the seed survives the comparison with y
      rw [hstep, if_neg hc]
      push_neg at hc
      have hxys : List.Sorted (· < ·) (x :: ys) := by
        rw [List.sorted_cons] at hs ⊢
        exact ⟨fun b hb => hs.1 b (by simp [hb]), (List.sorted_cons.mp hs.2).2⟩
      have h := ih x hxys
      obtain ⟨hmem, hstrict, hmin, htie⟩ := h
      refine ⟨?_, ?_, ?_, ?_⟩
      · rcases List.mem_cons.mp hmem with h1 | h2
        · simp [h1]
        · exact List.mem_cons.mpr (Or.inr (List.mem_cons.mpr (Or.inr h2)))
      · exact hstrict
      · intro j hj
        rcases List.mem_cons.mp hj with h1 | hj2
        · rw [h1]; exact hmin x (by simp)
        rcases List.mem_cons.mp hj2 with h1 | h2
        · rw [h1]
          exact le_trans (hmin x (by simp)) hc
        · exact hmin j (by simp [h2])
      · intro j hj hje
        rcases List.mem_cons.mp hj with h1 | hj2
        · rw [h1] at hje ⊢; exact htie x (by simp) hje
        rcases List.mem_cons.mp hj2 with h1 | h2
        · rw [h1] at hje ⊢
          by_cases hrx : pyMin f x ys = x
          · rw [hrx]; exact le_of_lt hxy
          · exfalso
            have hlt : f (pyMin f x ys) < f y := lt_of_lt_of_le (hstrict hrx) hc
            rw [hje] at hlt
            exact absurd hlt (lt_irrefl _)
        · exact htie j (by simp [h2]) hje

theorem pyMinL_mem (f : Nat → ℚ) (l : List Nat) (h : l ≠ []) : pyMinL f l ∈ l := by
  cases l with
  | nil => exact absurd rfl h
  | cons x xs => exact pyMin_mem f xs x

theorem pyMinL_spec (f : Nat → ℚ) (l : List Nat) (h : l ≠ [])
    (hs : List.Sorted (· < ·) l) :
    pyMinL f l ∈ l ∧ (∀ j ∈ l, f (pyMinL f l) ≤ f j) ∧
      (∀ j ∈ l, f j = f (pyMinL f l) → pyMinL f l ≤ j) := by
  cases l with
  | nil => exact absurd rfl h
  | cons x xs =>
    obtain ⟨h1, _, h3, h4⟩ := pyMin_spec f xs x hs
    exact ⟨h1, h3, h4⟩

theorem nnLoop_perm (d : Coord → Coord → ℚ) (locs : List Coord) :
    ∀ (fuel : Nat) (u : List Nat) (cur : Nat),
      u.length = fuel → (nnLoop d locs fuel cur u).Perm u := by
  intro fuel
  induction fuel with
  | zero =>
    intro u cur h
    rw [List.length_eq_zero] at h
    subst h
    simp [nnLoop]
  | succ fuel ih =>
    intro u cur h
    cases u with
    | nil => simp [nnLoop]
    | cons x xs =>
      simp only [nnLoop]
      have hmem := pyMin_mem (fun i => d (coordAt locs cur) (coordAt locs i)) xs x
      have hlen :
          ((x :: xs).erase (pyMin (fun i => d (coordAt locs cur) (coordAt locs i)) x xs)).length
            = fuel := by
        rw [List.length_erase_of_mem hmem]
        simpa using h
      have hperm := ih _ (pyMin (fun i => d (coordAt locs cur) (coordAt locs i)) x xs) hlen
      exact (hperm.cons _).trans (List.perm_cons_erase hmem).symm

theorem nnLoop_greedy (d : Coord → Coord → ℚ) (locs : List Coord) :
    ∀ (fuel : Nat) (u : List Nat) (cur : Nat),
      List.Sorted (· < ·) u → u.length = fuel →
      greedyFrom d locs cur u (nnLoop d locs fuel cur u) := by
  intro fuel
  induction fuel with
  | zero =>
    intro u cur _ h
    rw [List.length_eq_zero] at h
    subst h
    simp [nnLoop, greedyFrom]
  | succ fuel ih =>
    intro u cur hs h
    cases u with
    | nil => simp [nnLoop, greedyFrom]
    | cons x xs =>
      simp only [nnLoop, greedyFrom]
      obtain ⟨hmem, _, hmin, htie⟩ :=
        pyMin_spec (fun i => d (coordAt locs cur) (coordAt locs i)) xs x hs
      refine ⟨hmem, hmin, htie, ?_⟩
      have hsort : List.Sorted (· < ·)
          ((x :: xs).erase (pyMin (fun i => d (coordAt locs cur) (coordAt locs i)) x xs)) :=
        hs.sublist (List.erase_sublist _ _)
      have hlen :
          ((x :: xs).erase (pyMin (fun i => d (coordAt locs cur) (coordAt locs i)) x xs)).length
            = fuel := by
        rw [List.length_erase_of_mem hmem]
        simpa using h
      exact ih _ _ hsort hlen

theorem nearest_neighbor_route_perm (d : Coord → Coord → ℚ) (locs : List Coord)
    (start : Option Coord) :
    (nearest_neighbor_route d locs start).Perm (List.range locs.length) := by
  match locs with
  | [] => simp [nearest_neighbor_route]
  | [c] =>
    rw [show List.range ([c] : List Coord).length = [0] from rfl]
    simp [nearest_neighbor_route]
  | c1 :: c2 :: cs =>
    simp only [nearest_neighbor_route]
    set locations := c1 :: c2 :: cs with hlocs
    set n := locations.length with hn
    have hnpos : 0 < n := by simp [hn, hlocs]
    have hcur : ∀ cur : Nat,
        cur ∈ List.range n →
        (cur :: nnLoop d locations (n - 1) cur ((List.range n).erase cur)).Perm
          (List.range n) := by
      intro cur hmem
      have hlen : ((List.range n).erase cur).length = n - 1 := by
        rw [List.length_erase_of_mem hmem, List.length_range]
      have hperm := nnLoop_perm d locations (n - 1) _ cur hlen
      exact (hperm.cons cur).trans (List.perm_cons_erase hmem).symm
    cases start with
    | none =>
      exact hcur 0 (List.mem_range.mpr hnpos)
    | some s =>
      refine hcur _ (pyMinL_mem _ _ ?_)
      intro hcontra
      rw [← List.length_eq_zero, List.length_range] at hcontra
      omega

/-- C1: for every list of coordinates (and any start option), the route of
`nearest_neighbor_route` is a permutation of the indices `0..n-1`, so it has
no duplicates, no omissions, and exactly the input's length; the empty list
yields `[]` and a one-element list yields `[0]`. -/
theorem claim_C1_route_is_permutation (d : Coord → Coord → ℚ) (locs : List Coord)
    (start : Option Coord) :
    (nearest_neighbor_route d locs start).Perm (List.range locs.length) ∧
    (locs = [] → nearest_neighbor_route d locs start = []) ∧
    (∀ c : Coord, locs = [c] → nearest_neighbor_route d locs start = [0]) := by
  refine ⟨nearest_neighbor_route_perm d locs start, ?_, ?_⟩
  · intro h; subst h; rfl
  · intro c h; subst h; rfl

theorem claim_C1_route_is_permutation_witness :
    nearest_neighbor_route sqDist [] none = [] ∧
    nearest_neighbor_route sqDist [((1 : ℚ), (2 : ℚ))] none = [0] :=
  ⟨(claim_C1_route_is_permutation sqDist [] none).2.1 rfl,
   (claim_C1_route_is_permutation sqDist [((1 : ℚ), (2 : ℚ))] none).2.2 _ rfl⟩

/-- C2: for every input with at least two locations, `nearest_neighbor_route`
follows the specified greedy algorithm: the first element is index 0 when no
start is given and the lowest-index minimiser of distance to `start`
otherwise; every subsequent element is the not-yet-visited index at minimum
distance to the current location with ties broken by the lowest index; and
the walk ends exactly when all locations are visited. -/
theorem claim_C2_route_is_greedy (d : Coord → Coord → ℚ) (locs : List Coord)
    (start : Option Coord) (h : 2 ≤ locs.length) : nnGreedySpec d locs start := by
  have hlen := (nearest_neighbor_route_perm d locs start).length_eq
  rw [List.length_range] at hlen
  cases locs with
  | nil => simp at h
  | cons a l =>
    cases l with
    | nil => simp at h
    | cons b l2 =>
      simp only [nearest_neighbor_route] at hlen ⊢
      cases start with
      | none =>
        refine ⟨0, _, rfl, fun _ => rfl, fun s hss => by simp at hss, ?_, hlen⟩
        have h0 : (0 : Nat) ∈ List.range (a :: b :: l2).length := by
          rw [List.mem_range]; simp
        refine nnLoop_greedy d (a :: b :: l2) _ _ 0
          ((List.sorted_lt_range _).sublist (List.erase_sublist _ _)) ?_
        rw [List.length_erase_of_mem h0, List.length_range]
      | some s =>
        have hne : List.range (a :: b :: l2).length ≠ [] := by
          intro hcontra
          rw [← List.length_eq_zero, List.length_range] at hcontra
          simp at hcontra
        obtain ⟨hmem, hmin, htie⟩ :=
          pyMinL_spec (fun i => d s (coordAt (a :: b :: l2) i))
            (List.range (a :: b :: l2).length) hne (List.sorted_lt_range _)
        refine ⟨_, _, rfl, fun hc => by simp at hc, ?_, ?_, hlen⟩
        · intro s2 hs2
          have : s2 = s := by injection hs2.symm
          subst this
          exact ⟨hmem, hmin, htie⟩
        · refine nnLoop_greedy d (a :: b :: l2) _ _ _
            ((List.sorted_lt_range _).sublist (List.erase_sublist _ _)) ?_
          rw [List.length_erase_of_mem hmem, List.length_range]

theorem claim_C2_route_is_greedy_witness :
    2 ≤ ([((0 : ℚ), (0 : ℚ)), ((3 : ℚ), (0 : ℚ)), ((1 : ℚ), (0 : ℚ))] : List Coord).length ∧
    nnGreedySpec sqDist [((0 : ℚ), (0 : ℚ)), ((3 : ℚ), (0 : ℚ)), ((1 : ℚ), (0 : ℚ))] none :=
  ⟨by decide,
   claim_C2_route_is_greedy sqDist
     [((0 : ℚ), (0 : ℚ)), ((3 : ℚ), (0 : ℚ)), ((1 : ℚ), (0 : ℚ))] none (by decide)⟩

/-! Lemmas about `optimize_route`. -/

theorem map_getD_range {α : Type} (dflt : α) : ∀ l : List α,
    (List.range l.length).map (fun i => l.getD i dflt) = l := by
  intro l
  induction l with
  | nil => rfl
  | cons a tl ih =>
    rw [List.length_cons, List.range_succ_eq_map, List.map_cons, List.map_map]
    simp only [List.getD_cons_zero, Function.comp_def, Nat.succ_eq_add_one,
      List.getD_cons_succ]
    rw [ih]

theorem route_map_getD_perm (d : Coord → Coord → ℚ) (locs : List Venue)
    (start : Option Coord) :
    ((nearest_neighbor_route d (locs.map coordOf) start).map
      (fun i => locs.getD i dfltVenue)).Perm locs := by
  have hp := (nearest_neighbor_route_perm d (locs.map coordOf) start).map
    (fun i => locs.getD i dfltVenue)
  rwa [List.length_map, map_getD_range dfltVenue locs] at hp

theorem zip_annotate (d : Coord → Coord → ℚ) : ∀ vs : List Venue,
    vs.zip ((List.zipWith (fun v w => d (coordOf v) (coordOf w)) vs vs.tail).map round2 ++ [0])
      = annotate d vs := by
  intro vs
  induction vs with
  | nil => rfl
  | cons v tl ih =>
    cases tl with
    | nil => rfl
    | cons w rest =>
      simp only [List.tail_cons] at ih ⊢
      simp only [List.zipWith_cons_cons, List.map_cons, List.cons_append,
        List.zip_cons_cons, annotate]
      rw [ih]

theorem zipWith_sum_pathSum (d : Coord → Coord → ℚ) : ∀ vs : List Venue,
    (List.zipWith (fun v w => d (coordOf v) (coordOf w)) vs vs.tail).sum = pathSum d vs := by
  intro vs
  induction vs with
  | nil => rfl
  | cons v tl ih =>
    cases tl with
    | nil => rfl
    | cons w rest =>
      simp only [List.tail_cons] at ih ⊢
      simp only [List.zipWith_cons_cons, List.sum_cons, pathSum]
      rw [ih]

theorem annotate_cons (d : Coord → Coord → ℚ) (v : Venue) (tl : List Venue) :
    ∃ q qs, annotate d (v :: tl) = q :: qs := by
  cases tl with
  | nil => exact ⟨(v, 0), [], rfl⟩
  | cons w rest => exact ⟨_, _, rfl⟩

theorem annotate_getLast (d : Coord → Coord → ℚ) : ∀ (vs : List Venue) (p : Venue × ℚ),
    (annotate d vs).getLast? = some p → p.2 = 0 := by
  intro vs
  induction vs with
  | nil => intro p hp; simp [annotate] at hp
  | cons v tl ih =>
    cases tl with
    | nil =>
      intro p hp
      simp only [annotate, List.getLast?_singleton] at hp
      injection hp with h
      rw [← h]
    | cons w rest =>
      intro p hp
      apply ih
      obtain ⟨q, qs, hq⟩ := annotate_cons d w rest
      rw [show annotate d (v :: w :: rest)
            = (v, round2 (d (coordOf v) (coordOf w))) :: annotate d (w :: rest) from rfl,
        hq, List.getLast?_cons_cons, ← hq] at hp
      exact hp

theorem annotate_map_fst (d : Coord → Coord → ℚ) : ∀ vs : List Venue,
    (annotate d vs).map Prod.fst = vs := by
  intro vs
  induction vs with
  | nil => rfl
  | cons v tl ih =>
    cases tl with
    | nil => rfl
    | cons w rest =>
      simp only [annotate, List.map_cons] at ih ⊢
      rw [ih]

theorem optimize_route_eq (d : Coord → Coord → ℚ) (a : Venue) (tl : List Venue)
    (start : Option Coord) :
    optimize_route d (a :: tl) start =
      Sum.inr (annotate d ((nearest_neighbor_route d ((a :: tl).map coordOf) start).map
          (fun i => (a :: tl).getD i dfltVenue)),
        pathSum d ((nearest_neighbor_route d ((a :: tl).map coordOf) start).map
          (fun i => (a :: tl).getD i dfltVenue))) := by
  simp only [optimize_route]
  rw [zip_annotate, zipWith_sum_pathSum]

theorem optimize_route_venues_perm (d : Coord → Coord → ℚ) (locs : List Venue)
    (start : Option Coord) : (routedVenues (optimize_route d locs start)).Perm locs := by
  cases locs with
  | nil => simp [optimize_route, routedVenues]
  | cons a tl =>
    rw [optimize_route_eq]
    show ((annotate d _).map Prod.fst).Perm _
    rw [annotate_map_fst]
    exact route_map_getD_perm d (a :: tl) start

/-! Lemmas about `cluster_by_proximity`. -/

theorem scanNear_perm (d : Coord → Coord → ℚ) (c : Coord) (m : ℚ) :
    ∀ l : List Venue, ((scanNear d c m l).1 ++ (scanNear d c m l).2).Perm l := by
  intro l
  induction l with
  | nil => simp [scanNear]
  | cons v rest ih =>
    by_cases hc : d c (coordOf v) ≤ m
    · simp only [scanNear, if_pos hc]
      simpa using ih.cons v
    · simp only [scanNear, if_neg hc]
      exact List.perm_middle.trans (ih.cons v)

theorem scanNear_near (d : Coord → Coord → ℚ) (c : Coord) (m : ℚ) :
    ∀ l : List Venue, ∀ v ∈ (scanNear d c m l).1, d c (coordOf v) ≤ m := by
  intro l
  induction l with
  | nil => intro v hv; simp [scanNear] at hv
  | cons w rest ih =>
    intro v hv
    by_cases hc : d c (coordOf w) ≤ m
    · simp only [scanNear, if_pos hc] at hv
      rcases List.mem_cons.mp hv with rfl | h2
      · exact hc
      · exact ih v h2
    · simp only [scanNear, if_neg hc] at hv
      exact ih v hv

theorem clusterLoop_join_perm (d : Coord → Coord → ℚ) (m : ℚ) :
    ∀ (fuel : Nat) (l : List Venue), l.length ≤ fuel →
      ((clusterLoop d m fuel l).flatten).Perm l := by
  intro fuel
  induction fuel with
  | zero =>
    intro l h
    have hnil : l = [] := by rw [← List.length_eq_zero]; omega
    subst hnil
    simp [clusterLoop]
  | succ fuel ih =>
    intro l h
    cases l with
    | nil => simp [clusterLoop]
    | cons seed rest =>
      simp only [clusterLoop, List.flatten_cons]
      have hperm := scanNear_perm d (coordOf seed) m rest
      have hlenfar : (scanNear d (coordOf seed) m rest).2.length ≤ fuel := by
        have h1 := hperm.length_eq
        rw [List.length_append] at h1
        have h2 : rest.length ≤ fuel := by
          simp only [List.length_cons] at h
          omega
        omega
      have hjoin := ih _ hlenfar
      have step1 := hjoin.append_left (seed :: (scanNear d (coordOf seed) m rest).1)
      refine step1.trans ?_
      rw [List.cons_append]
      exact hperm.cons seed

theorem clusterLoop_clusters (d : Coord → Coord → ℚ) (m : ℚ) :
    ∀ (fuel : Nat) (l : List Venue), ∀ c ∈ clusterLoop d m fuel l,
      ∃ s tl2, c = s :: tl2 ∧ ∀ v ∈ tl2, d (coordOf s) (coordOf v) ≤ m := by
  intro fuel
  induction fuel with
  | zero => intro l c hc; simp [clusterLoop] at hc
  | succ fuel ih =>
    intro l c hc
    cases l with
    | nil => simp [clusterLoop] at hc
    | cons seed rest =>
      simp only [clusterLoop, List.mem_cons] at hc
      rcases hc with rfl | h2
      · exact ⟨seed, _, rfl, fun v hv => scanNear_near d (coordOf seed) m rest v hv⟩
      · exact ih _ c h2

theorem roundHalfEven_intCast (z : ℤ) : roundHalfEven (z : ℚ) = z := by
  simp [roundHalfEven, Int.floor_intCast]

theorem round1_intCast (z : ℤ) : round1 (z : ℚ) = (z : ℚ) := by
  unfold round1
  rw [show ((z : ℚ) * 10) = (((z * 10 : ℤ)) : ℚ) by push_cast; ring, roundHalfEven_intCast]
  push_cast
  field_simp

theorem round2_of_small (q : ℚ) (h0 : 0 ≤ q * 100) (h1 : q * 100 < 1 / 2) :
    round2 q = 0 := by
  have hfloor : ⌊q * 100⌋ = 0 := by
    rw [Int.floor_eq_iff]
    constructor
    · exact_mod_cast h0
    · push_cast
      linarith
  have hrhe : roundHalfEven (q * 100) = 0 := by
    simp only [roundHalfEven, hfloor, Int.cast_zero, sub_zero]
    rw [if_pos h1]
  unfold round2
  rw [hrhe]
  norm_num

/-- C3 counterexample: the claim says the exact consecutive-pair distance is
attached to the earlier venue, but the code attaches `round(dist, 2)`.  With
a consecutive distance of 0.001 km (two venues about a metre apart — geodesic
distances are generically not multiples of 0.01), the stored field is 0 while
the pair distance is 1/1000 and the returned total is the unrounded 1/1000. -/
theorem claim_C3_counterexample :
    optimize_route dTiny [vA, vB] none = Sum.inr ([(vA, 0), (vB, 0)], 1 / 1000) ∧
    dTiny (coordOf vA) (coordOf vB) = 1 / 1000 ∧ (1 / 1000 : ℚ) ≠ 0 := by
  have hr2 : round2 (1 / 1000) = 0 := round2_of_small _ (by norm_num) (by norm_num)
  refine ⟨?_, rfl, by norm_num⟩
  rw [show ([vA, vB] : List Venue) = vA :: [vB] from rfl, optimize_route_eq]
  rw [show (nearest_neighbor_route dTiny ((vA :: [vB]).map coordOf) none).map
        (fun i => (vA :: [vB]).getD i dfltVenue) = [vA, vB] from rfl]
  have ha : annotate dTiny [vA, vB] = [(vA, 0), (vB, 0)] := by
    rw [show annotate dTiny [vA, vB]
          = [(vA, round2 (dTiny (coordOf vA) (coordOf vB))), (vB, 0)] from rfl]
    rw [show dTiny (coordOf vA) (coordOf vB) = 1 / 1000 from rfl, hr2]
  have hp : pathSum dTiny [vA, vB] = 1 / 1000 := by
    rw [show pathSum dTiny [vA, vB] = dTiny (coordOf vA) (coordOf vB) + 0 from rfl]
    norm_num [dTiny]
  rw [ha, hp]

/-- C3 (amended: the field attached to the earlier venue is the consecutive
pair's distance rounded to two decimals, not the exact distance): for every
venue list with at least two elements, `optimize_route` returns the reordered
venues each annotated with the rounded distance to its successor, the final
venue annotated with 0, and a total equal to the exact unrounded sum of the
consecutive-pair distances along the assembled order. -/
theorem claim_C3_day_route_annotation (d : Coord → Coord → ℚ) (locs : List Venue)
    (start : Option Coord) (h : 2 ≤ locs.length) :
    ∃ l t, optimize_route d locs start = Sum.inr (l, t) ∧
      ∃ vs : List Venue, vs.Perm locs ∧ l = annotate d vs ∧ t = pathSum d vs ∧
        ∀ p : Venue × ℚ, l.getLast? = some p → p.2 = 0 := by
  cases locs with
  | nil => simp at h
  | cons a tl =>
    refine ⟨_, _, optimize_route_eq d a tl start, _,
      route_map_getD_perm d (a :: tl) start, rfl, rfl, ?_⟩
    intro p hp
    exact annotate_getLast d _ p hp

theorem claim_C3_day_route_annotation_witness :
    ∃ l t, optimize_route sqDist [vA, vB] none = Sum.inr (l, t) ∧
      ∃ vs : List Venue, vs.Perm [vA, vB] ∧ l = annotate sqDist vs ∧
        t = pathSum sqDist vs ∧ ∀ p : Venue × ℚ, l.getLast? = some p → p.2 = 0 :=
  claim_C3_day_route_annotation sqDist [vA, vB] none (by decide)

/-- C4: for every venue list and every nonnegative threshold, and any distance
function vanishing on the diagonal (as the geodesic does), the clusters of
`cluster_by_proximity` form a partition of the input — the flattened clusters
are a permutation of the input, every cluster is nonempty — and every member
of a cluster lies within the threshold of the cluster's seed (its first
venue), the seed's coordinate being the comparison anchor throughout. -/
theorem claim_C4_cluster_partition (d : Coord → Coord → ℚ) (locs : List Venue) (maxd : ℚ)
    (hd : ∀ p : Coord, d p p = 0) (hm : 0 ≤ maxd) :
    ((cluster_by_proximity d locs maxd).flatten).Perm locs ∧
    (∀ c ∈ cluster_by_proximity d locs maxd, c ≠ []) ∧
    (∀ c ∈ cluster_by_proximity d locs maxd, ∀ v ∈ c,
      d (coordOf (c.headD dfltVenue)) (coordOf v) ≤ maxd) := by
  refine ⟨clusterLoop_join_perm d maxd locs.length locs le_rfl, ?_, ?_⟩
  · intro c hc
    obtain ⟨s, tl2, rfl, _⟩ := clusterLoop_clusters d maxd locs.length locs c hc
    simp
  · intro c hc v hv
    obtain ⟨s, tl2, rfl, hnear⟩ := clusterLoop_clusters d maxd locs.length locs c hc
    rcases List.mem_cons.mp hv with rfl | hv2
    · rw [List.headD_cons, hd]
      exact hm
    · rw [List.headD_cons]
      exact hnear v hv2

theorem claim_C4_cluster_partition_witness :
    ((cluster_by_proximity sqDist [vA, vB] 5).flatten).Perm [vA, vB] ∧
    (∀ c ∈ cluster_by_proximity sqDist [vA, vB] 5, c ≠ []) ∧
    (∀ c ∈ cluster_by_proximity sqDist [vA, vB] 5, ∀ v ∈ c,
      sqDist (coordOf (c.headD dfltVenue)) (coordOf v) ≤ 5) :=
  claim_C4_cluster_partition sqDist [vA, vB] 5 (fun p => by simp [sqDist]) (by norm_num)

/-- C5 counterexample: the claim says every venue kind at exactly (0, 0) gets
a fallback resolution attempt and is excluded from route computation when it
fails.  But a restaurant with both coordinate keys present and equal to 0 is
kept in the `extract_locations` output (which feeds `calculate_route`) even
though every resolution fails, and an attraction at exactly (0, 0) is dropped
with no fallback attempt even when the resolver could supply coordinates. -/
theorem claim_C5_counterexample :
    extract_locations (fun _ _ => none) planR =
      [⟨"R", "restaurant", 0, 0, 0, 0, some "Day 1", none, some "breakfast"⟩] ∧
    extract_locations (fun _ _ => some (49, -123)) planA = [] := by
  refine ⟨rfl, rfl⟩

/-- C5 (amended): only hotels undergo fallback coordinate resolution, and only
when both (defaulted) coordinates are exactly 0; a hotel whose resolution
fails is excluded from the extracted locations, while a successful resolution
with nonzero components includes it at the resolved coordinates.  Attractions
with missing or zero coordinates are excluded without any fallback attempt,
and restaurants are included whenever both coordinate keys are present, even
at (0, 0).  Assembly itself never aborts (all branches are total). -/
theorem claim_C5_assembler_exclusion_amended :
    (∀ (resolver : String → String → Option (ℚ × ℚ)) (h : HotelR),
      h.latitude.getD 0 = 0 → h.longitude.getD 0 = 0 →
      resolver h.name h.address = none → hotelLoc resolver h = []) ∧
    (∀ (resolver : String → String → Option (ℚ × ℚ)) (h : HotelR) (p q : ℚ),
      h.latitude.getD 0 = 0 → h.longitude.getD 0 = 0 →
      resolver h.name h.address = some (p, q) → p ≠ 0 → q ≠ 0 →
      hotelLoc resolver h =
        [⟨h.name, "hotel", p, q, h.price.getD 0, h.rating.getD 0, none, none, none⟩]) ∧
    (∀ (day slot : String) (a : AttrR),
      truthyOpt a.latitude = false ∨ truthyOpt a.longitude = false →
      attrLoc day slot a = []) ∧
    (∀ (day meal : String) (r : RestR),
      r.latitude.isSome → r.longitude.isSome →
      restLoc day meal r =
        [⟨r.name, "restaurant", r.latitude.getD 0, r.longitude.getD 0,
          r.price.getD 0, r.rating.getD 0, some day, none, some meal⟩]) := by
  refine ⟨?_, ?_, ?_, ?_⟩
  · intro resolver h h1 h2 h3
    simp [hotelLoc, h1, h2, h3]
  · intro resolver h p q h1 h2 h3 hp hq
    simp [hotelLoc, h1, h2, h3, hp, hq]
  · intro day slot a ha
    rcases ha with ha | ha <;> simp [attrLoc, ha]
  · intro day meal r h1 h2
    simp [restLoc, h1, h2]

theorem claim_C5_assembler_exclusion_amended_witness :
    hotelLoc (fun _ _ => none) hotelZero = [] ∧
    hotelLoc (fun _ _ => some (49, -123)) hotelZero =
      [⟨"H", "hotel", 49, -123, 0, 0, none, none, none⟩] ∧
    attrLoc "Day 1" "morning" attrZero = [] ∧
    restLoc "Day 1" "breakfast" restZero =
      [⟨"R", "restaurant", 0, 0, 0, 0, some "Day 1", none, some "breakfast"⟩] :=
  ⟨claim_C5_assembler_exclusion_amended.1 _ hotelZero rfl rfl rfl,
   claim_C5_assembler_exclusion_amended.2.1 _ hotelZero 49 (-123) rfl rfl rfl
     (by norm_num) (by norm_num),
   claim_C5_assembler_exclusion_amended.2.2.1 _ _ attrZero (Or.inl (by decide)),
   claim_C5_assembler_exclusion_amended.2.2.2 _ _ restZero rfl rfl⟩

/-- C6: for every distance, `calculate_travel_time` is distance divided by
the mode's tabulated speed (driving 50, walking 5, transit 30, cycling 15),
times 60, rounded to one decimal; every mode outside the table uses the
driving speed 50; and the spec's two examples evaluate to 120.0 minutes. -/
theorem claim_C6_travel_time (dkm : ℚ) :
    calculate_travel_time dkm "driving" = round1 (dkm / 50 * 60) ∧
    calculate_travel_time dkm "walking" = round1 (dkm / 5 * 60) ∧
    calculate_travel_time dkm "transit" = round1 (dkm / 30 * 60) ∧
    calculate_travel_time dkm "cycling" = round1 (dkm / 15 * 60) ∧
    (∀ mode : String,
      mode ∉ (["driving", "walking", "transit", "cycling"] : List String) →
      calculate_travel_time dkm mode = round1 (dkm / 50 * 60)) ∧
    calculate_travel_time 100 "driving" = 120 ∧
    calculate_travel_time 10 "walking" = 120 := by
  have hdrive : ∀ q : ℚ, calculate_travel_time q "driving" = round1 (q / 50 * 60) := by
    intro q; simp [calculate_travel_time]
  have hwalk : ∀ q : ℚ, calculate_travel_time q "walking" = round1 (q / 5 * 60) := by
    intro q; simp [calculate_travel_time]
  refine ⟨hdrive dkm, hwalk dkm,
    by simp [calculate_travel_time], by simp [calculate_travel_time], ?_, ?_, ?_⟩
  · intro mode hmode
    simp only [List.mem_cons, List.not_mem_nil, or_false, not_or] at hmode
    obtain ⟨h1, h2, h3, h4⟩ := hmode
    simp [calculate_travel_time, h1, h2, h3, h4]
  · rw [hdrive 100, show (100 : ℚ) / 50 * 60 = ((120 : ℤ) : ℚ) by norm_num, round1_intCast]
    norm_num
  · rw [hwalk 10, show (10 : ℚ) / 5 * 60 = ((120 : ℤ) : ℚ) by norm_num, round1_intCast]
    norm_num

theorem claim_C6_travel_time_witness :
    calculate_travel_time 7 "flying" = round1 (7 / 50 * 60) :=
  (claim_C6_travel_time 7).2.2.2.2.1 "flying" (by decide)

/-- C9: for every venue list (and any start), `optimize_route` only reorders
the input and pairs each venue with the derived distance-to-next value: the
venues of the output, with the appended field stripped, are exactly a
permutation of the input venues, every other field untouched.  The function
is a pure function of its inputs (it is a plain definition over them). -/
theorem claim_C9_optimize_route_frame (d : Coord → Coord → ℚ) (locs : List Venue)
    (start : Option Coord) : (routedVenues (optimize_route d locs start)).Perm locs :=
  optimize_route_venues_perm d locs start

/-- C10: a venue dict lacking the latitude and longitude keys is treated as
located at (0, 0) — the `.get(key, 0)` default — and still participates in
routing and clustering: it appears in the optimized route's venues and in the
flattened clusters, with no exclusion and no error (both functions are total). -/
theorem claim_C10_missing_coordinate_keys_default (d : Coord → Coord → ℚ) (v : Venue)
    (hla : v.latitude = none) (hlo : v.longitude = none) (locs : List Venue)
    (start : Option Coord) (maxd : ℚ) (hv : v ∈ locs) :
    coordOf v = (0, 0) ∧
    v ∈ routedVenues (optimize_route d locs start) ∧
    v ∈ (cluster_by_proximity d locs maxd).flatten := by
  refine ⟨by simp [coordOf, hla, hlo], ?_, ?_⟩
  · exact (optimize_route_venues_perm d locs start).mem_iff.mpr hv
  · exact (clusterLoop_join_perm d maxd locs.length locs le_rfl).mem_iff.mpr hv

theorem claim_C10_missing_coordinate_keys_default_witness :
    coordOf vNoCoords = (0, 0) ∧
    vNoCoords ∈ routedVenues (optimize_route sqDist [vA, vNoCoords] none) ∧
    vNoCoords ∈ (cluster_by_proximity sqDist [vA, vNoCoords] 5).flatten :=
  claim_C10_missing_coordinate_keys_default sqDist vNoCoords rfl rfl
    [vA, vNoCoords] none 5 (by decide)

end AITravel
